import Mathlib

/-!
Shallow embedding of the Telegram store scraper / export pipeline
(`src/main.py` and `src/export_only.py`).

Modelling conventions:
* Python strings are modelled as `List Char` (`Str` below).
* The concrete regular expressions of the source are hand-compiled to
  recursive matchers with Python `re.search` semantics (leftmost starting
  position wins; ordered alternation; greedy quantifiers — for the patterns
  at hand greediness is deterministic because adjacent character classes are
  disjoint, so no backtracking case is lost).
* `\d` and `\s` are modelled over the ASCII digits / ASCII whitespace, and
  `\w` over ASCII alphanumerics, underscore and the Cyrillic block
  U+0400–U+04FF; `re.IGNORECASE` is modelled by `lowerChar`, which folds
  ASCII and the Ukrainian/Cyrillic letters used by the source patterns.
* Effectful code (network, filesystem, sleeping) is modelled by explicit
  oracles and event lists.
-/

namespace TgScrape

abbrev Str := List Char

def isAsciiDigit (c : Char) : Bool := '0' ≤ c && c ≤ '9'

/-- Python `\s` (ASCII whitespace fragment). -/
def isPySpace (c : Char) : Bool :=
  c = ' ' || c = '\t' || c = '\n' || c = '\r' || c = '\x0b' || c = '\x0c'

/-- Case folding for `re.IGNORECASE`, covering ASCII and the Cyrillic
letters appearing in the source patterns (`А`–`Я`, `І`, `Ї`, `Є`, `Ґ`). -/
def lowerChar (c : Char) : Char :=
  if 'A' ≤ c && c ≤ 'Z' then Char.ofNat (c.toNat + 32)
  else if 'А' ≤ c && c ≤ 'Я' then Char.ofNat (c.toNat + 32)
  else if c = 'І' then 'і'
  else if c = 'Ї' then 'ї'
  else if c = 'Є' then 'є'
  else if c = 'Ґ' then 'ґ'
  else c

/-- Python `\w` (ASCII alphanumerics, underscore, Cyrillic block). -/
def isWordChar (c : Char) : Bool :=
  isAsciiDigit c || ('a' ≤ c && c ≤ 'z') || ('A' ≤ c && c ≤ 'Z') || c = '_' ||
  ('Ѐ' ≤ c && c ≤ 'ӿ')

/-- Python `str.strip()`. -/
def strip (cs : Str) : Str :=
  ((cs.dropWhile isPySpace).reverse.dropWhile isPySpace).reverse

/-- Python `str.split(sep)` for a one-character separator: never returns `[]`,
keeps empty fields. -/
def splitOnChar (sep : Char) : Str → List Str
  | [] => [[]]
  | c :: rest =>
    match splitOnChar sep rest with
    | [] => if c = sep then [[], []] else [[c]]
    | h :: t => if c = sep then [] :: h :: t else (c :: h) :: t

/-- Python `sep.join(xs)`. -/
def joinWith (sep : Str) : List Str → Str
  | [] => []
  | [x] => x
  | x :: y :: xs => x ++ sep ++ joinWith sep (y :: xs)

def digitsToNat (ds : Str) : Nat := ds.foldl (fun a c => a * 10 + (c.toNat - 48)) 0

/-- Match a literal pattern prefix case-insensitively, returning the rest of
the text on success. -/
def stripPrefixCI : Str → Str → Option Str
  | [], cs => some cs
  | _ :: _, [] => none
  | p :: ps, c :: cs => if lowerChar c = lowerChar p then stripPrefixCI ps cs else none

def firstSome : List (Option Nat) → Option Nat
  | [] => none
  | some n :: _ => some n
  | none :: rest => firstSome rest

/-!  ### Price patterns (`PRICE_PATTERNS` in `src/main.py`)

Pattern 1: `(?:Ціна|Price|Ціна\:|Price\:)\s*[:\-]?\s*(\d+)\s*(?:грн|UAH|USD|\$)?`
Pattern 2: `(\d+)\s*(?:грн|UAH|USD|\$)`
both searched with `re.IGNORECASE` over the whole text; the captured group is
the digit run, converted with `int`.  The trailing optional currency group of
pattern 1 cannot affect success or the capture, so it is not represented. -/

/-- The optional separator `[:\-]?` (greedy, deterministic here). -/
def sepSkip : Str → Str
  | [] => []
  | c :: t => if c = ':' || c = '-' then t else c :: t

/-- The common tail `\s*[:\-]?\s*(\d+)` of pattern 1 after one of its
alternation literals. -/
def priceTail (cs : Str) : Option Nat :=
  let ds := ((sepSkip (cs.dropWhile isPySpace)).dropWhile isPySpace).takeWhile isAsciiDigit
  if ds.isEmpty then none else some (digitsToNat ds)

/-- Pattern 1 anchored at the current position: ordered alternation over the
four label literals, each followed by `priceTail`. -/
def pat1At (cs : Str) : Option Nat :=
  firstSome
    [ (stripPrefixCI ("Ціна").data cs).bind priceTail,
      (stripPrefixCI ("Price").data cs).bind priceTail,
      (stripPrefixCI ("Ціна:").data cs).bind priceTail,
      (stripPrefixCI ("Price:").data cs).bind priceTail ]

/-- The currency keyword alternation `(?:грн|UAH|USD|\$)` anchored at the
current position. -/
def currencyAt (cs : Str) : Bool :=
  (stripPrefixCI ("грн").data cs).isSome ||
  (stripPrefixCI ("UAH").data cs).isSome ||
  (stripPrefixCI ("USD").data cs).isSome ||
  (match cs with | '$' :: _ => true | _ => false)

/-- Pattern 2 anchored at the current position: `(\d+)\s*(?:грн|UAH|USD|\$)`. -/
def pat2At (cs : Str) : Option Nat :=
  let ds := cs.takeWhile isAsciiDigit
  if ds.isEmpty then none
  else if currencyAt ((cs.dropWhile isAsciiDigit).dropWhile isPySpace) then
    some (digitsToNat ds)
  else none

/-- `re.search`: try the anchored matcher at every starting position, left to
right (including the final empty position, where our patterns cannot match). -/
def searchPos (patAt : Str → Option Nat) : Str → Option Nat
  | [] => patAt []
  | c :: rest =>
    match patAt (c :: rest) with
    | some n => some n
    | none => searchPos patAt rest

def searchPat1 (t : Str) : Option Nat := searchPos pat1At t

def searchPat2 (t : Str) : Option Nat := searchPos pat2At t

def PRICE_PATTERNS : List (Str → Option Nat) := [searchPat1, searchPat2]

/-- The price-extraction loop of `parse_product_info`: try the patterns in
order, first match wins. -/
def extractPrice (t : Str) : Option Nat :=
  firstSome (PRICE_PATTERNS.map (fun pat => pat t))

/-!  ### Size pattern `\b(XS|S|M|L|XL|XXL)\b` (IGNORECASE) -/

def SIZE_TOKENS : List Str :=
  [['X','S'], ['S'], ['M'], ['L'], ['X','L'], ['X','X','L']]

/-- `\b` after a token (the token ends in a word character, so the boundary
holds iff the rest starts with a non-word character or is empty). -/
def boundaryAfter : Str → Bool
  | [] => true
  | c :: _ => !(isWordChar c)

/-- Ordered alternation over the size tokens at the current position, each
followed by `\b`. -/
def sizeAt : List Str → Str → Option Str
  | [], _ => none
  | tok :: toks, cs =>
    match stripPrefixCI tok cs with
    | some r => if boundaryAfter r then some tok else sizeAt toks cs
    | none => sizeAt toks cs

/-- `\b` before the match: the size tokens start with a word character, so the
boundary holds iff the previous character is absent or non-word. -/
def boundaryBefore : Option Char → Bool
  | none => true
  | some c => !(isWordChar c)

def searchSizeAux (prev : Option Char) : Str → Option Str
  | [] => none
  | c :: rest =>
    match (if boundaryBefore prev then sizeAt SIZE_TOKENS (c :: rest) else none) with
    | some tok => some tok
    | none => searchSizeAux (some c) rest

/-- `re.search(SIZE_PATTERN, text, re.IGNORECASE)` followed by
`.group(1).upper()`: the returned token is the canonical uppercase literal. -/
def searchSize (t : Str) : Option Str := searchSizeAux none t

/-!  ### `TelegramScraper._sanitize_name` -/

def ILLEGAL_NAME_CHARS : List Char := ['<', '>', ':', '"', '/', '\\', '|', '?', '*']

def sanitize_name (name : Str) : Str :=
  let n := name.filter (fun c => !(ILLEGAL_NAME_CHARS.contains c))
  let n := strip (n.take 50)
  n.map (fun c => if c = ' ' then '_' else c)

/-!  ### `TelegramScraper.parse_product_info` -/

structure ParsedAttributes where
  name : Str
  price : Nat
  size : Option Str
  description : Str
  raw_text : Str
deriving DecidableEq, Repr

def parse_product_info (message_text : Str) : Option ParsedAttributes :=
  if message_text.isEmpty || (strip message_text).isEmpty then none
  else
    let lines := splitOnChar '\n' (strip message_text)
    let name := strip (lines.headD [])
    match extractPrice message_text with
    | none => none
    | some price =>
      let size := searchSize message_text
      let description :=
        if 1 < lines.length then strip (joinWith ['\n'] lines.tail) else []
      some { name := sanitize_name name, price := price, size := size,
             description := description, raw_text := message_text }

/-- Whether the text contains one of the currency keywords of the price
patterns at some position (used only to state spec sentences). -/
def hasCurrencyKeyword : Str → Bool
  | [] => false
  | c :: rest => currencyAt (c :: rest) || hasCurrencyKeyword rest

/-!  ### Raw messages and the grouping loop of `scrape_channel` -/

structure RawMessage where
  id : Nat
  /-- `isinstance(msg.media, (MessageMediaPhoto, MessageMediaDocument))`:
  the message carries a retrievable attachment. -/
  media : Bool
  grouped_id : Option Nat
  message : Str
  /-- `msg.date`, kept opaque as its ISO string. -/
  date : Option Str
deriving DecidableEq, Repr

/-- Python truthiness of `msg.grouped_id` (`None` and `0` are both falsy in
`if msg.grouped_id:`). -/
def truthyKey (m : RawMessage) : Option Nat :=
  match m.grouped_id with
  | none => none
  | some k => if k = 0 then none else some k

abbrev Group := RawMessage × List RawMessage

/-- The inner loop `for lead, group in groups: if lead.grouped_id ==
msg.grouped_id: group.append(msg); break`. -/
def appendToGroup (gid : Option Nat) (m : RawMessage) : List Group → List Group
  | [] => []
  | (lead, grp) :: rest =>
    if lead.grouped_id = gid then (lead, grp ++ [m]) :: rest
    else (lead, grp) :: appendToGroup gid m rest

/-- One iteration of the grouping loop in `scrape_channel` (state:
`seen_group_ids`, `groups`). -/
def groupStep (acc : List Nat × List Group) (m : RawMessage) :
    List Nat × List Group :=
  if !m.media then acc
  else
    match truthyKey m with
    | some gid =>
      if gid ∈ acc.1 then (acc.1, appendToGroup m.grouped_id m acc.2)
      else (gid :: acc.1, acc.2 ++ [(m, [m])])
    | none => (acc.1, acc.2 ++ [(m, [m])])

def groupMessages (msgs : List RawMessage) : List Group :=
  (msgs.foldl groupStep ([], [])).2

/-!  ### `TelegramScraper.download_media_list` -/

/-- Result of one `client.download_media` call: a returned local path
(possibly `None`, which Python treats as falsy) or a raised exception. -/
inductive DLResult where
  | ok (path : Option Str)
  | err
deriving DecidableEq, Repr

/-- `os.path.basename`: everything after the last `/`. -/
def basename (cs : Str) : Str :=
  (cs.reverse.takeWhile (fun c => c ≠ '/')).reverse

/-- Transcript of the retry loop for a single attachment. -/
structure AttemptOutcome where
  result : Option Str
  sleeps : List Nat
  attemptsMade : Nat
deriving DecidableEq, Repr

/-- The `for attempt in range(1, 4)` retry loop of `download_media_list`;
`oracle a` is the outcome of the transfer attempt numbered `a`.  On success
the basename is recorded (if the returned path is truthy) and the loop
breaks; on failure at `attempt == 3` the attachment is skipped, otherwise
the loop sleeps `attempt * 3` seconds and retries. -/
def attemptFrom (oracle : Nat → DLResult) : List Nat → AttemptOutcome
  | [] => ⟨none, [], 0⟩
  | a :: rest =>
    match oracle a with
    | .ok p => ⟨p.map basename, [], 1⟩
    | .err =>
      if a = 3 then ⟨none, [], 1⟩
      else
        let o := attemptFrom oracle rest
        ⟨o.result, a * 3 :: o.sleeps, o.attemptsMade + 1⟩

def RETRY_ATTEMPTS : List Nat := [1, 2, 3]

/-- Per-message body of `download_media_list`: messages without media are
skipped without any transfer attempt. -/
def downloadOne (oracle : Nat → DLResult) (m : RawMessage) : AttemptOutcome :=
  if m.media then attemptFrom oracle RETRY_ATTEMPTS else ⟨none, [], 0⟩

def enumFrom {α : Type} (i : Nat) : List α → List (Nat × α)
  | [] => []
  | x :: xs => (i, x) :: enumFrom (i + 1) xs

/-- `download_media_list`, returning the `downloaded_files` accumulator;
`oracle idx attempt` is the transfer outcome for the message at position
`idx` of `enumerate(messages)`. -/
def download_media_list (oracle : Nat → Nat → DLResult)
    (msgs : List RawMessage) : List Str :=
  (enumFrom 0 msgs).foldl
    (fun acc im =>
      match (downloadOne (oracle im.1) im.2).result with
      | some f => acc ++ [f]
      | none => acc) []

/-!  ### Product assembly (per-product loop of `scrape_channel`) -/

structure Metadata where
  name : Str
  price : Nat
  size : Option Str
  description : Str
  images : List Str
  message_date : Option Str
  message_id : Nat
deriving DecidableEq, Repr

/-- An entry of the in-memory `self.products` list. -/
structure Product where
  name : Str
  price : Nat
  size : Option Str
  description : Str
  images : Str
  folder : Str
deriving DecidableEq, Repr

inductive WriteEvent where
  | mkdir (folder : Str)
  | writeMeta (folder : Str) (meta : Metadata)
  | writeInfo (folder : Str) (content : Str)
deriving DecidableEq, Repr

def natToStrAux : Nat → Nat → Str → Str
  | 0, _, acc => acc
  | fuel + 1, n, acc =>
    if n < 10 then Char.ofNat (48 + n) :: acc
    else natToStrAux fuel (n / 10) (Char.ofNat (48 + n % 10) :: acc)

/-- Python `str(n)` for a natural number. -/
def natToStr (n : Nat) : Str := natToStrAux (n + 1) n []

/-- Python `str.zfill`: left-pad with `'0'` to the given width. -/
def zfill (w : Nat) (s : Str) : Str := List.replicate (w - s.length) '0' ++ s

/-- `folder_name = f"{num_str}_{product_info['name']}_{product_info['price']}"`
with `num_str = str(product_num).zfill(len(str(total)))`. -/
def folderName (total productNum : Nat) (name : Str) (price : Nat) : Str :=
  zfill (natToStr total).length (natToStr productNum) ++ ['_'] ++ name ++ ['_']
    ++ natToStr price

/-- `next((m.message for m in group if m.message), None)`: the first truthy
(non-empty) message text of the group. -/
def groupText : List RawMessage → Option Str
  | [] => none
  | m :: rest => if m.message.isEmpty then groupText rest else some m.message

/-- The `valid_groups` filter: keep `(lead, group, text)` whenever the group
has a truthy representative text that the extractor accepts. -/
def validGroups (gs : List Group) : List (RawMessage × List RawMessage × Str) :=
  gs.filterMap (fun g =>
    match groupText g.2 with
    | none => none
    | some t => if (parse_product_info t).isSome then some (g.1, g.2, t) else none)

/-- One iteration of the per-product loop of `scrape_channel`, given the
result `fetched` of `download_media_list` for this group: the folder is
created first; if nothing was downloaded the product is skipped, otherwise
`metadata.json` and `info.txt` are written and the product is appended. -/
def assembleOne (total idx : Nat) (lead : RawMessage) (text : Str)
    (fetched : List Str) : List WriteEvent × Option Product :=
  match parse_product_info text with
  | none => ([], none)
  | some info =>
    let folder := folderName total (idx + 1) info.name info.price
    if fetched.isEmpty then ([WriteEvent.mkdir folder], none)
    else
      ([WriteEvent.mkdir folder,
        WriteEvent.writeMeta folder
          { name := info.name, price := info.price, size := info.size,
            description := info.description, images := fetched,
            message_date := lead.date, message_id := lead.id },
        WriteEvent.writeInfo folder info.raw_text],
       some { name := info.name, price := info.price, size := info.size,
              description := info.description,
              images := joinWith [';'] fetched, folder := folder })

/-- The whole per-product loop: `fetch idx` is the `download_media_list`
result for the group at position `idx` of `enumerate(valid_groups)`. -/
def assembleAll (fetch : Nat → List Str) (total : Nat)
    (groups : List (RawMessage × List RawMessage × Str)) :
    List WriteEvent × List Product :=
  (enumFrom 0 groups).foldl
    (fun acc ig =>
      let r := assembleOne total ig.1 ig.2.1 ig.2.2.2 (fetch ig.1)
      (acc.1 ++ r.1, acc.2 ++ r.2.toList))
    ([], [])

/-!  ### `export_only.py`: description noise stripping

`_STRIP_RE` is the union of five patterns, applied with `fullmatch` to each
stripped line (IGNORECASE).  Each alternative is hand-compiled below; `.*`
never sees a newline because lines come from `splitlines`. -/

/-- The separator class `[\s:–-]` (note `–` is U+2013). -/
def sepClassDesc (c : Char) : Bool := isPySpace c || c = ':' || c = '–' || c = '-'

/-- `Ціна[\s:–-].*` as a full match. -/
def stripPat1 (s : Str) : Bool :=
  match stripPrefixCI ("Ціна").data s with
  | some (c :: _) => sepClassDesc c
  | _ => false

/-- `Розміри?[\s:–-].*` as a full match (`и?` is greedy; backtracking cannot
succeed because `и` is not in the separator class). -/
def stripPat2 (s : Str) : Bool :=
  match stripPrefixCI ("Розмір").data s with
  | none => false
  | some [] => false
  | some (c :: rest) =>
    if lowerChar c = 'и' then
      match rest with
      | d :: _ => sepClassDesc d
      | [] => false
    else sepClassDesc c

/-- `Для замовлення.*` as a full match. -/
def stripPat3 (s : Str) : Bool := (stripPrefixCI ("Для замовлення").data s).isSome

/-- `@\w+` as a full match. -/
def stripPat4 (s : Str) : Bool :=
  match s with
  | '@' :: rest => !rest.isEmpty && rest.all isWordChar
  | _ => false

/-- `https?://\S+` as a full match (`s?` is greedy; backtracking cannot
succeed because `://` does not start with `s`). -/
def stripPat5 (s : Str) : Bool :=
  match stripPrefixCI ("http").data s with
  | none => false
  | some r =>
    let r2 := match r with
              | c :: t =>
                if lowerChar c = 's' then stripPrefixCI ("://").data t
                else stripPrefixCI ("://").data (c :: t)
              | [] => none
    match r2 with
    | some u => !u.isEmpty && u.all (fun c => !isPySpace c)
    | none => false

def stripREFullmatch (s : Str) : Bool :=
  stripPat1 s || stripPat2 s || stripPat3 s || stripPat4 s || stripPat5 s

/-- `clean_description`: drop every line whose stripped form fully matches a
noise pattern or is empty; join the surviving original lines with a space
and strip.  (`str.splitlines` is modelled on `'\n'`.) -/
def clean_description (text : Str) : Str :=
  let lines := splitOnChar '\n' text
  let clean := lines.filter
    (fun l => !(stripREFullmatch (strip l)) && !(strip l).isEmpty)
  strip (joinWith [' '] clean)

/-!  ### `export_only.py`: `clean_name` -/

/-- One alternative of `^(Ціна|Price|Cina)\b`. -/
def junkTokenAt (tok : Str) (s : Str) : Bool :=
  match stripPrefixCI tok s with
  | some r => boundaryAfter r
  | none => false

/-- `_JUNK_NAME_RE.match(s)`: anchored at the start, token then `\b`. -/
def junkNameMatch (s : Str) : Bool :=
  junkTokenAt ("Ціна").data s || junkTokenAt ("Price").data s ||
  junkTokenAt ("Cina").data s

/-- Python `str.isdigit` (ASCII fragment): non-empty and all digits. -/
def isDigitStr (p : Str) : Bool := !p.isEmpty && p.all isAsciiDigit

/-- Python `str.replace("_", " ")` then `strip`. -/
def underscoresToSpaces (s : Str) : Str :=
  s.map (fun c => if c = '_' then ' ' else c)

def clean_name (raw_name folder_name : Str) : Str :=
  let name := strip (underscoresToSpaces raw_name)
  let name :=
    if junkNameMatch name then
      let parts := splitOnChar '_' folder_name
      let kept := ((parts.drop 1).dropLast).filter
        (fun p => !(isDigitStr p) && !(junkNameMatch p))
      strip (joinWith [' '] kept)
    else name
  if name.isEmpty then ("Unknown Brand").data else name

/-- The folder-derived fallback name of `clean_name` (the spec's "drop the
leading sequence-number segment and the trailing price segment, discard
purely numeric or label segments"). -/
def derivedFromFolder (folder : Str) : Str :=
  strip (joinWith [' ']
    (((splitOnChar '_' folder).drop 1).dropLast.filter
      (fun p => !(isDigitStr p) && !(junkNameMatch p))))

/-!  ### Export flatteners (`build_export` rows and `generate_export` rows) -/

/-- A spreadsheet cell: string, integer, or the literal float `0.5` used for
the fixed weight placeholder. -/
inductive Cell where
  | s (v : Str)
  | i (v : Nat)
  | half
deriving DecidableEq, Repr

/-- Python `round(num / den)` for naturals: banker's rounding
(round-half-to-even).  For `den = 50` the float quotient is exact at every
`.5` boundary, so the float detour of the source cannot flip a tie. -/
def roundHalfEven (num den : Nat) : Nat :=
  let q := num / den
  let r := num % den
  if 2 * r < den then q
  else if den < 2 * r then q + 1
  else if q % 2 = 0 then q else q + 1

/-- Python `str.rstrip('/')`. -/
def rstripSlash (s : Str) : Str := (s.reverse.dropWhile (fun c => c = '/')).reverse

/-- `.replace('[', '').replace(']', '')`. -/
def stripBrackets (s : Str) : Str := s.filter (fun c => c ≠ '[' && c ≠ ']')

/-- A record rebuilt by `build_export` from one `metadata.json`. -/
structure ProductEO where
  folder : Str
  name : Str
  price_uah : Nat
  description : Str
  images : List Str
deriving DecidableEq, Repr

/-- `max(len(p["images"]) for p in products)` (products non-empty). -/
def maxImagesEO (ps : List ProductEO) : Nat :=
  ps.foldl (fun a p => max a p.images.length) 0

/-- The image column label `f"Product Image File – {i + 1}"`. -/
def imgColName (j : Nat) : Str := ("Product Image File – ").data ++ natToStr j

/-- The composed WebDAV filename `f"{webdav_folder}__{p['images'][i]}"`. -/
def composedName (folder fname : Str) : Str :=
  stripBrackets folder ++ ("__").data ++ fname

/-- One image cell of `build_export`. -/
def imageCellEO (url : Str) (p : ProductEO) (idx : Nat) : Str :=
  let fname := composedName p.folder (p.images.getD idx [])
  if !url.isEmpty then rstripSlash url ++ ['/'] ++ fname else fname

/-- One `build_export` row (an insertion-ordered dict; the image labels never
collide with the nine fixed keys, so the dict is a plain association list).
`p["description"] or ""` equals the description itself on this model. -/
def buildRowEO (m : Nat) (url : Str) (p : ProductEO) : List (Str × Cell) :=
  [(("Item Type").data, Cell.s (("Product").data)),
   (("Product Name").data, Cell.s p.name),
   (("Category").data, Cell.s (("Clothing").data)),
   (("Price").data, Cell.i (roundHalfEven p.price_uah 50)),
   (("Product Description").data, Cell.s p.description),
   (("Brand Name").data, Cell.s []),
   (("Product Weight").data, Cell.half),
   (("Product Type").data, Cell.s (("P").data)),
   (("Product Visible?").data, Cell.s (("Y").data))]
  ++ (List.range m).map (fun i =>
      (imgColName (i + 1),
       Cell.s (if i < p.images.length then imageCellEO url p i else [])))

def buildRowsEO (url : Str) (ps : List ProductEO) : List (List (Str × Cell)) :=
  ps.map (buildRowEO (maxImagesEO ps) url)

/-- `p["images"].split(";")` of `generate_export`. -/
def splitSemicolon (s : Str) : List Str := splitOnChar ';' s

def maxImagesMain (ps : List Product) : Nat :=
  ps.foldl (fun a p => max a (splitSemicolon p.images).length) 0

/-- One image cell of `generate_export` (bare filename, no folder prefix). -/
def imageCellMain (url : Str) (fname : Str) : Str :=
  if !url.isEmpty then rstripSlash url ++ ['/'] ++ fname else fname

/-- One `generate_export` row. -/
def buildRowMain (m : Nat) (url : Str) (p : Product) : List (Str × Cell) :=
  [(("Item Type").data, Cell.s (("Product").data)),
   (("Name").data, Cell.s (p.name.map (fun c => if c = '_' then ' ' else c))),
   (("Price").data, Cell.i (roundHalfEven p.price 50)),
   (("Description").data, Cell.s p.description),
   (("Brand Name").data, Cell.s []),
   (("Weight").data, Cell.half),
   (("Type").data, Cell.s (("P").data)),
   (("Is Visible").data, Cell.s (("Y").data))]
  ++ (List.range m).map (fun i =>
      (imgColName (i + 1),
       Cell.s (if i < (splitSemicolon p.images).length then
                 imageCellMain url ((splitSemicolon p.images).getD i []) else [])))

def generateExportRows (url : Str) (ps : List Product) : List (List (Str × Cell)) :=
  ps.map (buildRowMain (maxImagesMain ps) url)

/-!  ### Filesystem view of `Downloads/` for the standalone export path -/

/-- The `Downloads/` directory: one entry per product directory, with the
parsed `metadata.json` when that file exists.  The scraper only ever writes
`images` as a list, so the `isinstance(images, str)` compatibility branch of
`build_export` is not exercised on this model. -/
abbrev FS := List (Str × Option Metadata)

/-- Lexicographic comparison of folder names (`sorted` key). -/
def strLe : Str → Str → Bool
  | [], _ => true
  | _ :: _, [] => false
  | c :: cs, d :: ds => if c = d then strLe cs ds else decide (c < d)

def insertSorted (x : Str × Metadata) :
    List (Str × Metadata) → List (Str × Metadata)
  | [] => [x]
  | y :: ys => if strLe x.1 y.1 then x :: y :: ys else y :: insertSorted x ys

def sortByFolder : List (Str × Metadata) → List (Str × Metadata)
  | [] => []
  | x :: xs => insertSorted x (sortByFolder xs)

/-- The product-list rebuilding loop of `build_export`: only directories
containing `metadata.json` contribute, in sorted order. -/
def productsFromFS (fs : FS) : List ProductEO :=
  (sortByFolder (fs.filterMap (fun e => e.2.map (fun meta => (e.1, meta))))).map
    (fun fm =>
      { folder := fm.1,
        name := clean_name fm.2.name fm.1,
        price_uah := fm.2.price,
        description := clean_description fm.2.description,
        images := fm.2.images })

/-- Loop invariant of the grouping loop: `processed` is the already-consumed
prefix of the scan. -/
structure GroupInv (processed : List RawMessage) (seen : List Nat)
    (gs : List Group) : Prop where
  media_only : ∀ g ∈ gs, ∀ m ∈ g.2, m.media = true
  singleton_no_key : ∀ g ∈ gs, truthyKey g.1 = none → g.2 = [g.1]
  members_eq : ∀ g ∈ gs, ∀ k, truthyKey g.1 = some k →
    g.2 = processed.filter (fun m => m.media && (m.grouped_id == some k))
  seen_iff : ∀ k, k ∈ seen ↔ ∃ g ∈ gs, truthyKey g.1 = some k
  key_unique : ∀ k,
    (gs.filter (fun g => truthyKey g.1 == some k)).length ≤ 1
  leads_sub : (gs.map Prod.fst).Sublist (processed.filter (fun m => m.media))
  lead_head : ∀ g ∈ gs, g.2.head? = some g.1
  proc_seen : ∀ m ∈ processed, ∀ k, m.media = true → truthyKey m = some k →
    k ∈ seen

/-!  ### Helper lemmas: both price patterns require a digit in the text -/

lemma mem_of_mem_dropWhile (p : Char → Bool) :
    ∀ {l : Str} {a : Char}, a ∈ l.dropWhile p → a ∈ l := by
  intro l
  induction l with
  | nil => intro a h; simp at h
  | cons c t ih =>
    intro a h
    by_cases hc : p c
    · rw [List.dropWhile_cons_of_pos hc] at h
      exact List.mem_cons_of_mem _ (ih h)
    · rwa [List.dropWhile_cons_of_neg hc] at h

lemma mem_of_mem_takeWhile (p : Char → Bool) :
    ∀ {l : Str} {a : Char}, a ∈ l.takeWhile p → p a = true ∧ a ∈ l := by
  intro l
  induction l with
  | nil => intro a h; simp at h
  | cons c t ih =>
    intro a h
    by_cases hc : p c
    · rw [List.takeWhile_cons_of_pos hc] at h
      rcases List.mem_cons.mp h with rfl | h2
      · exact ⟨hc, List.mem_cons_self _ _⟩
      · exact ⟨(ih h2).1, List.mem_cons_of_mem _ (ih h2).2⟩
    · rw [List.takeWhile_cons_of_neg hc] at h
      simp at h

lemma mem_of_mem_sepSkip : ∀ {l : Str} {a : Char}, a ∈ sepSkip l → a ∈ l := by
  intro l a h
  cases l with
  | nil => simp [sepSkip] at h
  | cons c t =>
    simp only [sepSkip] at h
    split at h
    · exact List.mem_cons_of_mem _ h
    · exact h

lemma mem_of_stripPrefixCI :
    ∀ {pre cs r : Str}, stripPrefixCI pre cs = some r → ∀ a ∈ r, a ∈ cs := by
  intro pre
  induction pre with
  | nil =>
    intro cs r h a ha
    simp only [stripPrefixCI, Option.some.injEq] at h
    exact h ▸ ha
  | cons p ps ih =>
    intro cs r h a ha
    cases cs with
    | nil => simp [stripPrefixCI] at h
    | cons c t =>
      simp only [stripPrefixCI] at h
      split at h
      · exact List.mem_cons_of_mem _ (ih h a ha)
      · simp at h

lemma firstSome_eq_some {l : List (Option Nat)} {n : Nat}
    (h : firstSome l = some n) : some n ∈ l := by
  induction l with
  | nil => simp [firstSome] at h
  | cons o rest ih =>
    cases o with
    | some m => simp only [firstSome, Option.some.injEq] at h; simp [h]
    | none => exact List.mem_cons_of_mem _ (ih h)

lemma priceTail_has_digit {cs : Str} {n : Nat} (h : priceTail cs = some n) :
    ∃ c ∈ cs, isAsciiDigit c = true := by
  simp only [priceTail] at h
  split at h
  · exact absurd h (by simp)
  · rename_i hne
    rcases hd : ((sepSkip (cs.dropWhile isPySpace)).dropWhile isPySpace).takeWhile isAsciiDigit
      with _ | ⟨c, ds⟩
    · rw [hd] at hne; simp at hne
    · have hc : c ∈ ((sepSkip (cs.dropWhile isPySpace)).dropWhile isPySpace).takeWhile
          isAsciiDigit := by rw [hd]; exact List.mem_cons_self _ _
      obtain ⟨hdig, hmem⟩ := mem_of_mem_takeWhile isAsciiDigit hc
      exact ⟨c, mem_of_mem_dropWhile _ (mem_of_mem_sepSkip
        (mem_of_mem_dropWhile _ hmem)), hdig⟩

lemma pat1At_has_digit : ∀ {cs : Str} {n : Nat}, pat1At cs = some n →
    ∃ c ∈ cs, isAsciiDigit c = true := by
  intro cs n h
  have hm := firstSome_eq_some h
  simp only [List.mem_cons, List.not_mem_nil, or_false] at hm
  rcases hm with hb | hb | hb | hb <;>
  · obtain ⟨r, hr, ht⟩ := Option.bind_eq_some.mp hb.symm
    obtain ⟨c, hcr, hdig⟩ := priceTail_has_digit ht
    exact ⟨c, mem_of_stripPrefixCI hr c hcr, hdig⟩

lemma pat2At_has_digit : ∀ {cs : Str} {n : Nat}, pat2At cs = some n →
    ∃ c ∈ cs, isAsciiDigit c = true := by
  intro cs n h
  simp only [pat2At] at h
  split at h
  · exact absurd h (by simp)
  · rename_i hne
    rcases hd : cs.takeWhile isAsciiDigit with _ | ⟨c, ds⟩
    · rw [hd] at hne; simp at hne
    · have hc : c ∈ cs.takeWhile isAsciiDigit := by
        rw [hd]; exact List.mem_cons_self _ _
      obtain ⟨hdig, hmem⟩ := mem_of_mem_takeWhile isAsciiDigit hc
      exact ⟨c, hmem, hdig⟩

lemma searchPos_has_digit (patAt : Str → Option Nat)
    (H : ∀ {cs : Str} {n : Nat}, patAt cs = some n → ∃ c ∈ cs, isAsciiDigit c = true) :
    ∀ {t : Str} {n : Nat}, searchPos patAt t = some n →
      ∃ c ∈ t, isAsciiDigit c = true := by
  intro t
  induction t with
  | nil => intro n h; exact H h
  | cons c rest ih =>
    intro n h
    simp only [searchPos] at h
    cases hp : patAt (c :: rest) with
    | some m => exact H hp
    | none =>
      rw [hp] at h
      obtain ⟨d, hd, hdig⟩ := ih h
      exact ⟨d, List.mem_cons_of_mem _ hd, hdig⟩

lemma no_digit_extractPrice {t : Str}
    (h : ∀ c ∈ t, isAsciiDigit c = false) : extractPrice t = none := by
  have h1 : searchPat1 t = none := by
    cases hq : searchPat1 t with
    | none => rfl
    | some m =>
      obtain ⟨c, hc, hdig⟩ := searchPos_has_digit pat1At pat1At_has_digit hq
      rw [h c hc] at hdig; exact absurd hdig (by simp)
  have h2 : searchPat2 t = none := by
    cases hq : searchPat2 t with
    | none => rfl
    | some m =>
      obtain ⟨c, hc, hdig⟩ := searchPos_has_digit pat2At pat2At_has_digit hq
      rw [h c hc] at hdig; exact absurd hdig (by simp)
  simp [extractPrice, PRICE_PATTERNS, firstSome, h1, h2]

lemma no_price_parse_none {t : Str} (h : extractPrice t = none) :
    parse_product_info t = none := by
  unfold parse_product_info
  split
  · rfl
  · simp [h]

/-!  ### Claim C1 -/

/-- C1: price extraction tries the two patterns in order over the whole text,
the first match's captured number is the price, and absence of any match
makes `parse_product_info` reject; every `ParsedAttributes` it produces
carries the price of the first matching pattern. -/
theorem price_pattern_order_and_gate (t : Str) :
    (∀ n, searchPat1 t = some n → extractPrice t = some n) ∧
    (searchPat1 t = none → extractPrice t = searchPat2 t) ∧
    (extractPrice t = none → parse_product_info t = none) ∧
    (∀ a, parse_product_info t = some a → extractPrice t = some a.price) := by
  refine ⟨?_, ?_, ?_, ?_⟩
  · intro n h
    simp [extractPrice, PRICE_PATTERNS, firstSome, h]
  · intro h
    cases h2 : searchPat2 t <;>
      simp [extractPrice, PRICE_PATTERNS, firstSome, h, h2]
  · exact no_price_parse_none
  · intro a h
    unfold parse_product_info at h
    split at h
    · exact absurd h (by simp)
    · cases hE : extractPrice t with
      | none => rw [hE] at h; exact absurd h (by simp)
      | some p =>
        rw [hE] at h
        simp only [Option.some.injEq] at h
        rw [← h]

/-- Witness for C1: a labelled price is extracted by the first pattern, and a
text matching no pattern is rejected. -/
theorem price_pattern_order_and_gate_witness :
    extractPrice (("Price: 40 UAH").data) = some 40 ∧
    parse_product_info (("hello").data) = none :=
  ⟨(price_pattern_order_and_gate (("Price: 40 UAH").data)).1 40 (by decide),
   (price_pattern_order_and_gate (("hello").data)).2.2.1 (by decide)⟩

/-!  ### Claim C9 -/

/-- C9 counterexample: on the exact text `"Ціна 500\nM"` the extractor's
description is `"M"` (every line after the first, per the code), not the
empty string the claim states. -/
theorem scenario_description_not_empty :
    (parse_product_info (("Ціна 500\nM").data)).map (fun a => a.description)
      = some (['M']) ∧ some (['M']) ≠ some ([] : Str) :=
  ⟨by decide, by decide⟩

/-- C9 amended: extraction on `"Ціна 500\nM"` yields price 500, size `"M"`
and description `"M"` (not the empty string); extraction on any text with no
ASCII digit and no currency keyword is rejected. -/
theorem scenario_parse_and_no_digit_rejection :
    ((parse_product_info (("Ціна 500\nM").data)).map
        (fun a => (a.price, a.size, a.description))
      = some (500, some (['M']), ['M'])) ∧
    (∀ t : Str, (∀ c ∈ t, isAsciiDigit c = false) →
      hasCurrencyKeyword t = false → parse_product_info t = none) := by
  refine ⟨by decide, ?_⟩
  intro t h _
  exact no_price_parse_none (no_digit_extractPrice h)

/-- Witness for C9 amended: a digit-free, currency-free text is rejected. -/
theorem scenario_parse_and_no_digit_rejection_witness :
    parse_product_info (("hello світ").data) = none :=
  scenario_parse_and_no_digit_rejection.2 (("hello світ").data)
    (by decide) (by decide)

/-!  ### Claim C2: album grouping -/

lemma truthyKey_eq_some {m : RawMessage} {k : Nat} :
    truthyKey m = some k ↔ m.grouped_id = some k ∧ k ≠ 0 := by
  rcases m with ⟨i, md, gid, mg, dt⟩
  rcases gid with _ | j
  · simp [truthyKey]
  · by_cases hj : j = 0
    · subst hj
      simp [truthyKey]
      omega
    · simp only [truthyKey, if_neg hj]
      constructor
      · intro h
        have hjk := Option.some.inj h
        subst hjk
        exact ⟨h, hj⟩
      · rintro ⟨h, _⟩
        exact h

lemma truthyKey_eq_none {m : RawMessage} :
    truthyKey m = none ↔ (m.grouped_id = none ∨ m.grouped_id = some 0) := by
  rcases m with ⟨i, md, gid, mg, dt⟩
  rcases gid with _ | j
  · simp [truthyKey]
  · by_cases hj : j = 0
    · subst hj
      simp [truthyKey]
    · simp [truthyKey, hj]

lemma filter_length_cons_congr {p : Group → Bool} {x y : Group}
    (h : p x = p y) (l : List Group) :
    ((x :: l).filter p).length = ((y :: l).filter p).length := by
  rw [List.filter_cons, List.filter_cons, h]
  split <;> simp

lemma truthyKey_ne_some_of_raw {m : RawMessage} {k : Nat}
    (h : m.grouped_id ≠ some k) : truthyKey m ≠ some k := by
  intro hc
  exact h (truthyKey_eq_some.mp hc).1

lemma appendToGroup_map_fst (gid : Option Nat) (m : RawMessage) :
    ∀ gs : List Group, (appendToGroup gid m gs).map Prod.fst = gs.map Prod.fst := by
  intro gs
  induction gs with
  | nil => rfl
  | cons g t ih =>
    rcases g with ⟨lead, grp⟩
    simp only [appendToGroup]
    split
    · simp
    · simp [ih]

lemma appendToGroup_decomp (gid : Nat) (m : RawMessage) :
    ∀ gs : List Group, (∃ g ∈ gs, g.1.grouped_id = some gid) →
      ∃ pre g₀ post, gs = pre ++ g₀ :: post ∧
        g₀.1.grouped_id = some gid ∧
        (∀ g ∈ pre, g.1.grouped_id ≠ some gid) ∧
        appendToGroup (some gid) m gs = pre ++ (g₀.1, g₀.2 ++ [m]) :: post := by
  intro gs
  induction gs with
  | nil =>
    rintro ⟨g, hg, _⟩
    simp at hg
  | cons hd t ih =>
    rcases hd with ⟨lead, grp⟩
    intro hex
    by_cases hh : lead.grouped_id = some gid
    · refine ⟨[], (lead, grp), t, by simp, hh, by simp, ?_⟩
      simp only [appendToGroup]
      rw [if_pos hh]
      simp
    · have hex2 : ∃ g ∈ t, g.1.grouped_id = some gid := by
        rcases hex with ⟨g, hg, hgid⟩
        rcases List.mem_cons.mp hg with rfl | hgt
        · exact absurd hgid hh
        · exact ⟨g, hgt, hgid⟩
      obtain ⟨pre, g₀, post, hdec, hg0, hpre, happ⟩ := ih hex2
      refine ⟨(lead, grp) :: pre, g₀, post, by rw [hdec]; rfl, hg0, ?_, ?_⟩
      · intro g hgm
        rcases List.mem_cons.mp hgm with rfl | hgp
        · exact hh
        · exact hpre g hgp
      · simp only [appendToGroup]
        rw [if_neg hh, happ]
        rfl

lemma head?_append_of_some {α : Type} {l l' : List α} {a : α}
    (h : l.head? = some a) : (l ++ l').head? = some a := by
  cases l with
  | nil => simp at h
  | cons x t => simpa using h

/-- One grouping-loop iteration preserves the invariant. -/
lemma groupStep_inv (processed : List RawMessage) (seen : List Nat)
    (gs : List Group) (m : RawMessage) (h : GroupInv processed seen gs) :
    GroupInv (processed ++ [m]) (groupStep (seen, gs) m).1
      (groupStep (seen, gs) m).2 := by
  by_cases hmed : m.media = true
  case neg =>
    have hmf : m.media = false := by
      revert hmed; cases m.media <;> simp
    have hstep : groupStep (seen, gs) m = (seen, gs) := by
      simp [groupStep, hmf]
    rw [hstep]
    show GroupInv (processed ++ [m]) seen gs
    constructor
    · exact h.media_only
    · exact h.singleton_no_key
    · intro g hg k hk
      rw [h.members_eq g hg k hk, List.filter_append]
      simp [hmf]
    · exact h.seen_iff
    · exact h.key_unique
    · have hfilt : (processed ++ [m]).filter (fun x => x.media) =
          processed.filter (fun x => x.media) := by
        rw [List.filter_append]
        simp [hmf]
      rw [hfilt]
      exact h.leads_sub
    · exact h.lead_head
    · intro x hx k hxm hk
      rcases List.mem_append.mp hx with hx | hx
      · exact h.proc_seen x hx k hxm hk
      · rcases List.mem_singleton.mp hx with rfl
        rw [hmf] at hxm
        exact absurd hxm (by simp)
  case pos =>
    cases htk : truthyKey m with
    | none =>
      have hstep : groupStep (seen, gs) m = (seen, gs ++ [(m, [m])]) := by
        simp [groupStep, hmed, htk]
      rw [hstep]
      show GroupInv (processed ++ [m]) seen (gs ++ [(m, [m])])
      have hgidm : m.grouped_id = none ∨ m.grouped_id = some 0 :=
        truthyKey_eq_none.mp htk
      have hnofilt : ∀ k : Nat, k ≠ 0 →
          (m.media && (m.grouped_id == some k)) = false := by
        intro k hk
        rcases hgidm with hg | hg
        · rw [hg, hmed]
          rfl
        · rw [hg, hmed, Bool.true_and, beq_eq_false_iff_ne]
          intro hc
          exact hk (Option.some.inj hc).symm
      constructor
      · intro g hg mm hmm
        rcases List.mem_append.mp hg with hg | hg
        · exact h.media_only g hg mm hmm
        · rcases List.mem_singleton.mp hg with rfl
          rcases List.mem_singleton.mp hmm with rfl
          exact hmed
      · intro g hg hk
        rcases List.mem_append.mp hg with hg | hg
        · exact h.singleton_no_key g hg hk
        · rcases List.mem_singleton.mp hg with rfl
          rfl
      · intro g hg k hk
        have hk0 : k ≠ 0 := (truthyKey_eq_some.mp hk).2
        rcases List.mem_append.mp hg with hg | hg
        · rw [h.members_eq g hg k hk, List.filter_append]
          simp [hnofilt k hk0]
        · rcases List.mem_singleton.mp hg with rfl
          simp [htk] at hk
      · intro k
        rw [h.seen_iff k]
        constructor
        · rintro ⟨g, hg, hk⟩
          exact ⟨g, List.mem_append_left _ hg, hk⟩
        · rintro ⟨g, hg, hk⟩
          rcases List.mem_append.mp hg with hg | hg
          · exact ⟨g, hg, hk⟩
          · rcases List.mem_singleton.mp hg with rfl
            simp [htk] at hk
      · intro k
        rw [List.filter_append]
        have : ([(m, [m])].filter (fun g => truthyKey g.1 == some k)) = [] := by
          simp [htk]
        rw [this, List.append_nil]
        exact h.key_unique k
      · rw [List.filter_append, List.map_append]
        have h1 : ([m].filter (fun x => x.media)) = [m] := by simp [hmed]
        rw [h1]
        exact List.Sublist.append h.leads_sub (by simp)
      · intro g hg
        rcases List.mem_append.mp hg with hg | hg
        · exact h.lead_head g hg
        · rcases List.mem_singleton.mp hg with rfl
          rfl
      · intro x hx k hxm hk
        rcases List.mem_append.mp hx with hx | hx
        · exact h.proc_seen x hx k hxm hk
        · rcases List.mem_singleton.mp hx with rfl
          simp [htk] at hk
    | some gid =>
      have hgid : m.grouped_id = some gid := (truthyKey_eq_some.mp htk).1
      have hgid0 : gid ≠ 0 := (truthyKey_eq_some.mp htk).2
      by_cases hseen : gid ∈ seen
      case pos =>
        have hstep : groupStep (seen, gs) m =
            (seen, appendToGroup m.grouped_id m gs) := by
          simp [groupStep, hmed, htk, hseen]
        rw [hstep]
        show GroupInv (processed ++ [m]) seen (appendToGroup m.grouped_id m gs)
        rw [hgid]
        obtain ⟨g₁, hg₁, hk₁⟩ := (h.seen_iff gid).mp hseen
        obtain ⟨pre, g₀, post, hdec, hg0, hpre, happ⟩ :=
          appendToGroup_decomp gid m gs ⟨g₁, hg₁, (truthyKey_eq_some.mp hk₁).1⟩
        have htg0 : truthyKey g₀.1 = some gid := truthyKey_eq_some.mpr ⟨hg0, hgid0⟩
        have hpre' : ∀ g ∈ pre, truthyKey g.1 ≠ some gid := by
          intro g hgp
          exact truthyKey_ne_some_of_raw (hpre g hgp)
        have hpost : ∀ g ∈ post, truthyKey g.1 ≠ some gid := by
          have hu := h.key_unique gid
          rw [hdec, List.filter_append] at hu
          have hfpre : (pre.filter (fun g => truthyKey g.1 == some gid)) = [] := by
            rw [List.filter_eq_nil_iff]
            intro g hgp
            simp only [beq_iff_eq]
            exact hpre' g hgp
          rw [hfpre, List.nil_append,
            List.filter_cons_of_pos (by simp [htg0]), List.length_cons] at hu
          have hlen : (post.filter (fun g => truthyKey g.1 == some gid)).length
              = 0 := Nat.le_zero.mp (Nat.le_of_succ_le_succ hu)
          intro g hgp hc
          have hmem : g ∈ post.filter (fun g => truthyKey g.1 == some gid) := by
            rw [List.mem_filter]
            exact ⟨hgp, by simp [hc]⟩
          rw [List.length_eq_zero] at hlen
          rw [hlen] at hmem
          simp at hmem
        rw [happ]
        have hmemold : ∀ g ∈ pre ++ post, g ∈ gs := by
          intro g hgm
          rw [hdec]
          rcases List.mem_append.mp hgm with hgm | hgm
          · exact List.mem_append_left _ hgm
          · exact List.mem_append_right _ (List.mem_cons_of_mem _ hgm)
        have hg0mem : g₀ ∈ gs := by
          rw [hdec]
          exact List.mem_append_right _ (List.mem_cons_self _ _)
        have hmemnew : ∀ g ∈ pre ++ (g₀.1, g₀.2 ++ [m]) :: post,
            (g ∈ pre ++ post) ∨ g = (g₀.1, g₀.2 ++ [m]) := by
          intro g hgm
          rcases List.mem_append.mp hgm with hgm | hgm
          · exact Or.inl (List.mem_append_left _ hgm)
          · rcases List.mem_cons.mp hgm with rfl | hgm
            · exact Or.inr rfl
            · exact Or.inl (List.mem_append_right _ hgm)
        have hnofilt : ∀ k : Nat, k ≠ gid →
            (m.media && (m.grouped_id == some k)) = false := by
          intro k hk
          rw [hgid, hmed, Bool.true_and, beq_eq_false_iff_ne]
          intro hc
          exact hk (Option.some.inj hc).symm
        constructor
        · intro g hg mm hmm
          rcases hmemnew g hg with hg | rfl
          · exact h.media_only g (hmemold g hg) mm hmm
          · rcases List.mem_append.mp hmm with hmm | hmm
            · exact h.media_only g₀ hg0mem mm hmm
            · rcases List.mem_singleton.mp hmm with rfl
              exact hmed
        · intro g hg hk
          rcases hmemnew g hg with hg | rfl
          · exact h.singleton_no_key g (hmemold g hg) hk
          · rw [htg0] at hk
            exact absurd hk (by simp)
        · intro g hg k hk
          rcases hmemnew g hg with hg | rfl
          · have hkg : k ≠ gid := by
              intro hc
              subst hc
              rcases List.mem_append.mp hg with hgp | hgp
              · exact hpre' g hgp hk
              · exact hpost g hgp hk
            rw [h.members_eq g (hmemold g hg) k hk, List.filter_append]
            simp [hnofilt k hkg]
          · have hkgid : k = gid := by
              rw [htg0] at hk
              exact (Option.some.inj hk).symm
            subst hkgid
            rw [h.members_eq g₀ hg0mem k htg0, List.filter_append]
            simp [hmed, hgid]
        · intro k
          rw [h.seen_iff k]
          constructor
          · rintro ⟨g, hg, hk⟩
            rw [hdec] at hg
            rcases List.mem_append.mp hg with hgm | hgm
            · exact ⟨g, List.mem_append_left _ hgm, hk⟩
            · rcases List.mem_cons.mp hgm with rfl | hgm
              · exact ⟨(g.1, g.2 ++ [m]), List.mem_append_right _
                  (List.mem_cons_self _ _), hk⟩
              · exact ⟨g, List.mem_append_right _ (List.mem_cons_of_mem _ hgm), hk⟩
          · rintro ⟨g, hg, hk⟩
            rcases hmemnew g hg with hgm | rfl
            · exact ⟨g, hmemold g hgm, hk⟩
            · exact ⟨g₀, hg0mem, hk⟩
        · intro k
          have hu := h.key_unique k
          rw [hdec] at hu
          rw [List.filter_append] at hu ⊢
          rw [List.length_append] at hu ⊢
          rw [filter_length_cons_congr (p := fun g => truthyKey g.1 == some k)
            (x := ((g₀.1, g₀.2 ++ [m]) : Group)) (y := g₀) rfl post]
          exact hu
        · have hmf : (pre ++ (g₀.1, g₀.2 ++ [m]) :: post).map Prod.fst =
              gs.map Prod.fst := by
            rw [← happ]
            exact appendToGroup_map_fst (some gid) m gs
          rw [hmf, List.filter_append]
          have h1 : ([m].filter (fun x => x.media)) = [m] := by simp [hmed]
          rw [h1]
          exact h.leads_sub.trans (List.sublist_append_left _ _)
        · intro g hg
          rcases hmemnew g hg with hgm | rfl
          · exact h.lead_head g (hmemold g hgm)
          · exact head?_append_of_some (h.lead_head g₀ hg0mem)
        · intro x hx k hxm hk
          rcases List.mem_append.mp hx with hx | hx
          · exact h.proc_seen x hx k hxm hk
          · rcases List.mem_singleton.mp hx with rfl
            rw [htk] at hk
            rcases Option.some.inj hk with rfl
            exact hseen
      case neg =>
        have hstep : groupStep (seen, gs) m =
            (gid :: seen, gs ++ [(m, [m])]) := by
          simp [groupStep, hmed, htk, hseen]
        rw [hstep]
        show GroupInv (processed ++ [m]) (gid :: seen) (gs ++ [(m, [m])])
        have hnogrp : ∀ g ∈ gs, truthyKey g.1 ≠ some gid := by
          intro g hg hc
          exact hseen ((h.seen_iff gid).mpr ⟨g, hg, hc⟩)
        have hnoproc : processed.filter
            (fun x => x.media && (x.grouped_id == some gid)) = [] := by
          rw [List.filter_eq_nil_iff]
          intro x hx hc
          simp only [Bool.and_eq_true, beq_iff_eq] at hc
          exact hseen (h.proc_seen x hx gid hc.1
            (truthyKey_eq_some.mpr ⟨hc.2, hgid0⟩))
        have hnofilt : ∀ k : Nat, k ≠ gid →
            (m.media && (m.grouped_id == some k)) = false := by
          intro k hk
          rw [hgid, hmed, Bool.true_and, beq_eq_false_iff_ne]
          intro hc
          exact hk (Option.some.inj hc).symm
        constructor
        · intro g hg mm hmm
          rcases List.mem_append.mp hg with hg | hg
          · exact h.media_only g hg mm hmm
          · rcases List.mem_singleton.mp hg with rfl
            rcases List.mem_singleton.mp hmm with rfl
            exact hmed
        · intro g hg hk
          rcases List.mem_append.mp hg with hg | hg
          · exact h.singleton_no_key g hg hk
          · rcases List.mem_singleton.mp hg with rfl
            simp [htk] at hk
        · intro g hg k hk
          rcases List.mem_append.mp hg with hg | hg
          · have hkg : k ≠ gid := by
              intro hc
              subst hc
              exact hnogrp g hg hk
            rw [h.members_eq g hg k hk, List.filter_append]
            simp [hnofilt k hkg]
          · rcases List.mem_singleton.mp hg with rfl
            have hkgid : k = gid := by
              rw [htk] at hk
              exact (Option.some.inj hk).symm
            subst hkgid
            rw [List.filter_append, hnoproc]
            simp [hmed, hgid]
        · intro k
          constructor
          · intro hks
            rcases List.mem_cons.mp hks with rfl | hks
            · exact ⟨(m, [m]), List.mem_append_right _ (List.mem_cons_self _ _), htk⟩
            · obtain ⟨g, hg, hk⟩ := (h.seen_iff k).mp hks
              exact ⟨g, List.mem_append_left _ hg, hk⟩
          · rintro ⟨g, hg, hk⟩
            rcases List.mem_append.mp hg with hg | hg
            · exact List.mem_cons_of_mem _ ((h.seen_iff k).mpr ⟨g, hg, hk⟩)
            · rcases List.mem_singleton.mp hg with rfl
              rw [htk] at hk
              rcases Option.some.inj hk with rfl
              exact List.mem_cons_self _ _
        · intro k
          rw [List.filter_append]
          by_cases hk : k = gid
          · subst hk
            have hfgs : gs.filter (fun g => truthyKey g.1 == some k) = [] := by
              rw [List.filter_eq_nil_iff]
              intro g hg
              simp only [beq_iff_eq]
              exact hnogrp g hg
            rw [hfgs, List.nil_append]
            exact le_trans (List.length_filter_le _ _) (by simp)
          · have hfnew : ([(m, [m])].filter
                (fun g => truthyKey g.1 == some k)) = [] := by
              rw [List.filter_eq_nil_iff]
              intro g hgm
              rcases List.mem_singleton.mp hgm with rfl
              show ¬((truthyKey m == some k) = true)
              rw [htk]
              simp only [beq_iff_eq, Option.some.injEq]
              intro hc
              exact hk hc.symm
            rw [hfnew, List.append_nil]
            exact h.key_unique k
        · rw [List.filter_append, List.map_append]
          have h1 : ([m].filter (fun x => x.media)) = [m] := by simp [hmed]
          rw [h1]
          exact List.Sublist.append h.leads_sub (by simp)
        · intro g hg
          rcases List.mem_append.mp hg with hg | hg
          · exact h.lead_head g hg
          · rcases List.mem_singleton.mp hg with rfl
            rfl
        · intro x hx k hxm hk
          rcases List.mem_append.mp hx with hx | hx
          · exact List.mem_cons_of_mem _ (h.proc_seen x hx k hxm hk)
          · rcases List.mem_singleton.mp hx with rfl
            rw [htk] at hk
            rcases Option.some.inj hk with rfl
            exact List.mem_cons_self _ _

lemma foldl_groupStep_inv :
    ∀ (rest processed : List RawMessage) (seen : List Nat) (gs : List Group),
      GroupInv processed seen gs →
      GroupInv (processed ++ rest)
        (rest.foldl groupStep (seen, gs)).1 (rest.foldl groupStep (seen, gs)).2 := by
  intro rest
  induction rest with
  | nil =>
    intro processed seen gs h
    simpa using h
  | cons m rest' ih =>
    intro processed seen gs h
    have h1 := groupStep_inv processed seen gs m h
    have h2 := ih (processed ++ [m]) (groupStep (seen, gs) m).1
      (groupStep (seen, gs) m).2 h1
    have hpp : (processed ++ [m]) ++ rest' = processed ++ m :: rest' := by simp
    rw [hpp] at h2
    rw [List.foldl_cons]
    exact h2

/-- C2: grouping discards attachment-free messages; a truthy-keyless
attachment message forms its own singleton group; all attachment messages
sharing one truthy album key land in at most one group whose member list is
exactly the input subsequence with that key (so exactly one group once such a
message exists); group order follows the input order of the lead messages,
and each group's first member is its lead. -/
theorem album_grouping (msgs : List RawMessage) :
    (∀ g ∈ groupMessages msgs, ∀ m ∈ g.2, m.media = true) ∧
    (∀ g ∈ groupMessages msgs, truthyKey g.1 = none → g.2 = [g.1]) ∧
    (∀ g ∈ groupMessages msgs, ∀ k, truthyKey g.1 = some k →
       g.2 = msgs.filter (fun m => m.media && (m.grouped_id == some k))) ∧
    (∀ k, ((groupMessages msgs).filter
        (fun g => truthyKey g.1 == some k)).length ≤ 1) ∧
    (∀ m ∈ msgs, ∀ k, m.media = true → truthyKey m = some k →
       ∃ g ∈ groupMessages msgs, truthyKey g.1 = some k) ∧
    ((groupMessages msgs).map Prod.fst).Sublist
        (msgs.filter (fun m => m.media)) ∧
    (∀ g ∈ groupMessages msgs, g.2.head? = some g.1) := by
  have h0 : GroupInv [] [] [] := by
    constructor <;> simp
  have h := foldl_groupStep_inv msgs [] [] [] h0
  rw [List.nil_append] at h
  exact ⟨h.media_only, h.singleton_no_key, h.members_eq, h.key_unique,
    fun m hm k hmed htk => (h.seen_iff k).mp (h.proc_seen m hm k hmed htk),
    h.leads_sub, h.lead_head⟩

def demoM1 : RawMessage := ⟨1, true, some 7, ("Ціна 500").data, none⟩

def demoM2 : RawMessage := ⟨2, false, some 7, [], none⟩

def demoM3 : RawMessage := ⟨3, true, none, [], none⟩

def demoM4 : RawMessage := ⟨4, true, some 7, ("м").data, none⟩

def demoMsgs : List RawMessage := [demoM1, demoM2, demoM3, demoM4]

/-- Witness for C2: on a concrete scan, the album group keyed 7 collects
exactly its two attachment messages in input order. -/
theorem album_grouping_witness :
    (demoM1, [demoM1, demoM4]).2 =
      demoMsgs.filter (fun m => m.media && (m.grouped_id == some 7)) :=
  (album_grouping demoMsgs).2.2.1 (demoM1, [demoM1, demoM4]) (by decide) 7
    (by decide)

/-!  ### Claim C4: retry / backoff / failure isolation -/

lemma foldl_result_append (f : Nat × RawMessage → Option Str) :
    ∀ (l : List (Nat × RawMessage)) (acc : List Str),
      l.foldl (fun acc im =>
        match f im with
        | some x => acc ++ [x]
        | none => acc) acc = acc ++ l.filterMap f := by
  intro l
  induction l with
  | nil => intro acc; simp
  | cons x xs ih =>
    intro acc
    cases hf : f x with
    | none => simp [List.foldl_cons, hf, ih, List.filterMap_cons]
    | some v => simp [List.foldl_cons, hf, ih, List.filterMap_cons]

/-- C4: per attachment the loop makes at most 3 attempts; after a failed
attempt `n < 3` it sleeps `n * 3` seconds (base delay 3, linear backoff);
after a third failure the attachment yields nothing; a success at attempt
`n` stops with exactly the backoff sleeps of the earlier failures.  The list
of downloaded files is the concatenation of the per-message results, so one
failed attachment never disturbs the remaining ones. -/
theorem retry_backoff_and_isolation (oracle : Nat → DLResult) :
    (attemptFrom oracle RETRY_ATTEMPTS).attemptsMade ≤ 3 ∧
    (oracle 1 = DLResult.err → oracle 2 = DLResult.err →
      oracle 3 = DLResult.err →
      attemptFrom oracle RETRY_ATTEMPTS = ⟨none, [1 * 3, 2 * 3], 3⟩) ∧
    (∀ p, oracle 1 = DLResult.ok p →
      attemptFrom oracle RETRY_ATTEMPTS = ⟨p.map basename, [], 1⟩) ∧
    (∀ p, oracle 1 = DLResult.err → oracle 2 = DLResult.ok p →
      attemptFrom oracle RETRY_ATTEMPTS = ⟨p.map basename, [1 * 3], 2⟩) ∧
    (∀ p, oracle 1 = DLResult.err → oracle 2 = DLResult.err →
      oracle 3 = DLResult.ok p →
      attemptFrom oracle RETRY_ATTEMPTS = ⟨p.map basename, [1 * 3, 2 * 3], 3⟩) ∧
    (∀ (orc : Nat → Nat → DLResult) (msgs : List RawMessage),
      download_media_list orc msgs =
        (enumFrom 0 msgs).filterMap
          (fun im => (downloadOne (orc im.1) im.2).result)) := by
  refine ⟨?_, ?_, ?_, ?_, ?_, ?_⟩
  · cases h1 : oracle 1 with
    | ok p => simp [attemptFrom, RETRY_ATTEMPTS, h1]
    | err =>
      cases h2 : oracle 2 with
      | ok p => simp [attemptFrom, RETRY_ATTEMPTS, h1, h2]
      | err =>
        cases h3 : oracle 3 with
        | ok p => simp [attemptFrom, RETRY_ATTEMPTS, h1, h2, h3]
        | err => simp [attemptFrom, RETRY_ATTEMPTS, h1, h2, h3]
  · intro h1 h2 h3
    simp [attemptFrom, RETRY_ATTEMPTS, h1, h2, h3]
  · intro p h1
    simp [attemptFrom, RETRY_ATTEMPTS, h1]
  · intro p h1 h2
    simp [attemptFrom, RETRY_ATTEMPTS, h1, h2]
  · intro p h1 h2 h3
    simp [attemptFrom, RETRY_ATTEMPTS, h1, h2, h3]
  · intro orc msgs
    unfold download_media_list
    rw [foldl_result_append]
    rfl

def demoOracle : Nat → DLResult :=
  fun a => if a = 2 then DLResult.ok (some (("dl/img_1.jpg").data)) else DLResult.err

/-- Witness for C4: an attachment that fails once and succeeds on the second
attempt sleeps exactly 3 seconds and stops after 2 attempts, recording the
basename of the returned path. -/
theorem retry_backoff_and_isolation_witness :
    attemptFrom demoOracle RETRY_ATTEMPTS =
      ⟨some (("img_1.jpg").data), [3], 2⟩ := by
  have h := (retry_backoff_and_isolation demoOracle).2.2.2.1
    (some (("dl/img_1.jpg").data)) (by decide) (by decide)
  rw [h]
  decide

/-!  ### Claim C3: empty fetch result discards the product -/

lemma foldl_pair_append {α β γ : Type} (f : α → List β) (g : α → List γ) :
    ∀ (l : List α) (a : List β) (b : List γ),
      l.foldl (fun acc x => (acc.1 ++ f x, acc.2 ++ g x)) (a, b)
        = (a ++ (l.map f).flatten, b ++ (l.map g).flatten) := by
  intro l
  induction l with
  | nil => intro a b; simp
  | cons x xs ih =>
    intro a b
    rw [List.foldl_cons, ih]
    simp

/-- C3: a group whose fetch comes back empty produces no product record: the
per-group step yields no metadata write, no raw-text backup write and no
in-memory product; and the loop output is exactly the concatenation of the
per-group outputs, so such a group contributes nothing at all. -/
theorem empty_fetch_discards_product (total idx : Nat) (lead : RawMessage)
    (text : Str) :
    ((assembleOne total idx lead text []).2 = none) ∧
    (∀ f meta, WriteEvent.writeMeta f meta ∉ (assembleOne total idx lead text []).1) ∧
    (∀ f c, WriteEvent.writeInfo f c ∉ (assembleOne total idx lead text []).1) ∧
    (∀ (fetch : Nat → List Str)
        (groups : List (RawMessage × List RawMessage × Str)),
      assembleAll fetch total groups =
        (((enumFrom 0 groups).map
            (fun ig => (assembleOne total ig.1 ig.2.1 ig.2.2.2 (fetch ig.1)).1)).flatten,
         ((enumFrom 0 groups).map
            (fun ig => (assembleOne total ig.1 ig.2.1 ig.2.2.2 (fetch ig.1)).2.toList)).flatten)) := by
  refine ⟨?_, ?_, ?_, ?_⟩
  · unfold assembleOne
    cases parse_product_info text <;> simp
  · intro f meta
    unfold assembleOne
    cases parse_product_info text <;> simp
  · intro f c
    unfold assembleOne
    cases parse_product_info text <;> simp
  · intro fetch groups
    unfold assembleAll
    have h := foldl_pair_append
      (fun ig : Nat × RawMessage × List RawMessage × Str =>
        (assembleOne total ig.1 ig.2.1 ig.2.2.2 (fetch ig.1)).1)
      (fun ig : Nat × RawMessage × List RawMessage × Str =>
        (assembleOne total ig.1 ig.2.1 ig.2.2.2 (fetch ig.1)).2.toList)
      (enumFrom 0 groups) [] []
    rw [List.nil_append, List.nil_append] at h
    exact h

/-- Witness for C3 at a concrete group. -/
theorem empty_fetch_discards_product_witness :
    (assembleOne 1 0 demoM1 (("Ціна 500\nM").data) []).2 = none ∧
    WriteEvent.writeMeta (("1_Ціна_500_500").data)
        { name := [], price := 0, size := none, description := [],
          images := [], message_date := none, message_id := 0 } ∉
      (assembleOne 1 0 demoM1 (("Ціна 500\nM").data) []).1 :=
  ⟨(empty_fetch_discards_product 1 0 demoM1 (("Ціна 500\nM").data)).1,
   (empty_fetch_discards_product 1 0 demoM1 (("Ціна 500\nM").data)).2.1
     (("1_Ціна_500_500").data)
     { name := [], price := 0, size := none, description := [],
       images := [], message_date := none, message_id := 0 }⟩

/-!  ### Claim C5: uniform dynamic image columns -/

lemma le_foldl_max_init {α : Type} (f : α → Nat) :
    ∀ (l : List α) (a : Nat), a ≤ l.foldl (fun acc x => max acc (f x)) a := by
  intro l
  induction l with
  | nil => intro a; simp
  | cons x xs ih =>
    intro a
    exact le_trans (le_max_left a (f x)) (ih (max a (f x)))

lemma foldl_max_le {α : Type} (f : α → Nat) :
    ∀ (l : List α) (a : Nat) (p : α), p ∈ l →
      f p ≤ l.foldl (fun acc x => max acc (f x)) a := by
  intro l
  induction l with
  | nil => intro a p hp; simp at hp
  | cons x xs ih =>
    intro a p hp
    rcases List.mem_cons.mp hp with rfl | hp
    · exact le_trans (le_max_right a (f p)) (le_foldl_max_init f xs (max a (f p)))
    · exact ih (max a (f x)) p hp

lemma foldl_max_attained {α : Type} (f : α → Nat) :
    ∀ (l : List α) (a : Nat),
      l.foldl (fun acc x => max acc (f x)) a = a ∨
      ∃ p ∈ l, l.foldl (fun acc x => max acc (f x)) a = f p := by
  intro l
  induction l with
  | nil => intro a; exact Or.inl rfl
  | cons x xs ih =>
    intro a
    simp only [List.foldl_cons]
    rcases ih (max a (f x)) with h0 | ⟨p, hp, heq⟩
    · by_cases hfa : f x ≤ a
      · rw [max_eq_left hfa] at h0
        rw [max_eq_left hfa]
        exact Or.inl h0
      · rw [max_eq_right (le_of_not_le hfa)] at h0
        rw [max_eq_right (le_of_not_le hfa)]
        exact Or.inr ⟨x, List.mem_cons_self _ _, h0⟩
    · exact Or.inr ⟨p, List.mem_cons_of_mem _ hp, heq⟩

lemma buildRowEO_length (m : Nat) (url : Str) (p : ProductEO) :
    (buildRowEO m url p).length = 9 + m := by
  unfold buildRowEO
  rw [List.length_append, List.length_map, List.length_range]
  rfl

lemma buildRowEO_get_img (m : Nat) (url : Str) (p : ProductEO) (i : Nat)
    (hi : i < m) :
    (buildRowEO m url p)[9 + i]? =
      some (imgColName (i + 1),
        Cell.s (if i < p.images.length then imageCellEO url p i else [])) := by
  unfold buildRowEO
  rw [List.getElem?_append_right (by simp)]
  simp [hi]

lemma buildRowMain_length (m : Nat) (url : Str) (p : Product) :
    (buildRowMain m url p).length = 8 + m := by
  unfold buildRowMain
  rw [List.length_append, List.length_map, List.length_range]
  rfl

lemma buildRowMain_get_img (m : Nat) (url : Str) (p : Product) (i : Nat)
    (hi : i < m) :
    (buildRowMain m url p)[8 + i]? =
      some (imgColName (i + 1),
        Cell.s (if i < (splitSemicolon p.images).length then
          imageCellMain url ((splitSemicolon p.images).getD i []) else [])) := by
  unfold buildRowMain
  rw [List.getElem?_append_right (by simp)]
  simp [hi]

/-- C5: with `m = maxImages`, image counts never exceed `m` and some record
attains it; every row has exactly `m` image columns after its fixed columns,
labelled `Product Image File – (i+1)`; column `i` past a record's own image
count is the empty string, present rather than omitted.  Both flatteners
(`build_export` and `generate_export`) are covered. -/
theorem image_columns_uniform (ps : List ProductEO) (url : Str)
    (p : ProductEO) (hp : p ∈ ps) :
    ((∀ q ∈ ps, q.images.length ≤ maxImagesEO ps) ∧
     (∃ q ∈ ps, q.images.length = maxImagesEO ps)) ∧
    ((buildRowEO (maxImagesEO ps) url p).length = 9 + maxImagesEO ps) ∧
    (∀ i, i < maxImagesEO ps →
      (buildRowEO (maxImagesEO ps) url p)[9 + i]? =
        some (imgColName (i + 1),
          Cell.s (if i < p.images.length then imageCellEO url p i else []))) ∧
    (∀ i, p.images.length ≤ i → i < maxImagesEO ps →
      (buildRowEO (maxImagesEO ps) url p)[9 + i]? =
        some (imgColName (i + 1), Cell.s [])) ∧
    (∀ row ∈ buildRowsEO url ps, ∃ q ∈ ps,
      row = buildRowEO (maxImagesEO ps) url q) ∧
    (∀ (qs : List Product) (q : Product), q ∈ qs →
      ((buildRowMain (maxImagesMain qs) url q).length = 8 + maxImagesMain qs) ∧
      (∀ i, (splitSemicolon q.images).length ≤ i → i < maxImagesMain qs →
        (buildRowMain (maxImagesMain qs) url q)[8 + i]? =
          some (imgColName (i + 1), Cell.s []))) := by
  refine ⟨⟨?_, ?_⟩, buildRowEO_length _ _ _, ?_, ?_, ?_, ?_⟩
  · intro q hq
    exact foldl_max_le (fun p => p.images.length) ps 0 q hq
  · rcases foldl_max_attained (fun p => p.images.length) ps 0 with h0 | ⟨q, hq, heq⟩
    · refine ⟨p, hp, ?_⟩
      have h1 : p.images.length ≤ maxImagesEO ps := by
        have h2 := foldl_max_le (fun q : ProductEO => q.images.length) ps 0 p hp
        simpa [maxImagesEO] using h2
      have h3 : maxImagesEO ps = 0 := by
        simpa [maxImagesEO] using h0
      omega
    · exact ⟨q, hq, heq.symm⟩
  · intro i hi
    exact buildRowEO_get_img _ _ _ _ hi
  · intro i hlow hi
    rw [buildRowEO_get_img _ _ _ _ hi]
    have : ¬(i < p.images.length) := by omega
    simp [this]
  · intro row hrow
    unfold buildRowsEO at hrow
    rw [List.mem_map] at hrow
    obtain ⟨q, hq, heq⟩ := hrow
    exact ⟨q, hq, heq.symm⟩
  · intro qs q hq
    refine ⟨buildRowMain_length _ _ _, ?_⟩
    intro i hlow hi
    rw [buildRowMain_get_img _ _ _ _ hi]
    have : ¬(i < (splitSemicolon q.images).length) := by omega
    simp [this]

def demoEO1 : ProductEO :=
  { folder := ("1_A_100").data, name := ("A").data, price_uah := 100,
    description := [], images := [("a.jpg").data] }

def demoEO2 : ProductEO :=
  { folder := ("2_B_200").data, name := ("B").data, price_uah := 200,
    description := [],
    images := [("b1.jpg").data, ("b2.jpg").data, ("b3.jpg").data] }

/-- Witness for C5: with counts 1 and 3, every row has 3 image columns and
the 1-image record's columns 2 and 3 are empty strings. -/
theorem image_columns_uniform_witness :
    ((buildRowEO (maxImagesEO [demoEO1, demoEO2]) [] demoEO1).length = 9 + 3) ∧
    ((buildRowEO (maxImagesEO [demoEO1, demoEO2]) [] demoEO1)[9 + 1]? =
      some (imgColName 2, Cell.s [])) ∧
    ((buildRowEO (maxImagesEO [demoEO1, demoEO2]) [] demoEO1)[9 + 2]? =
      some (imgColName 3, Cell.s [])) := by
  have h := image_columns_uniform [demoEO1, demoEO2] [] demoEO1
    (List.mem_cons_self _ _)
  refine ⟨?_, ?_, ?_⟩
  · have h2 := h.2.1
    rw [show maxImagesEO [demoEO1, demoEO2] = 3 from by decide] at h2
    exact h2
  · exact h.2.2.2.1 1 (by decide) (by decide)
  · exact h.2.2.2.1 2 (by decide) (by decide)

/-!  ### Claim C6: price conversion -/

/-- C6: both flatteners export `round(price / 50)` with Python's `round`,
i.e. round-half-to-even: below the midpoint the quotient rounds down, above
it up, and at an exact `.5` boundary the result is the even neighbour;
`500 ↦ 10`. -/
theorem price_conversion_round_half_even :
    (∀ n : Nat, n % 50 < 25 → roundHalfEven n 50 = n / 50) ∧
    (∀ n : Nat, 25 < n % 50 → roundHalfEven n 50 = n / 50 + 1) ∧
    (∀ n : Nat, n % 50 = 25 → roundHalfEven n 50 % 2 = 0 ∧
      (roundHalfEven n 50 = n / 50 ∨ roundHalfEven n 50 = n / 50 + 1)) ∧
    (∀ (url : Str) (m : Nat) (p : ProductEO),
      (buildRowEO m url p)[3]? =
        some (("Price").data, Cell.i (roundHalfEven p.price_uah 50))) ∧
    (∀ (url : Str) (m : Nat) (q : Product),
      (buildRowMain m url q)[2]? =
        some (("Price").data, Cell.i (roundHalfEven q.price 50))) := by
  refine ⟨?_, ?_, ?_, ?_, ?_⟩
  · intro n h
    simp only [roundHalfEven]
    split_ifs <;> omega
  · intro n h
    simp only [roundHalfEven]
    split_ifs <;> omega
  · intro n h
    simp only [roundHalfEven]
    split_ifs <;> constructor <;> omega
  · intro url m p
    rfl
  · intro url m q
    rfl

/-- Witness for C6: stored price 500 exports as 10. -/
theorem price_conversion_round_half_even_witness :
    roundHalfEven 500 50 = 10 := by
  have h := price_conversion_round_half_even.1 500 (by decide)
  rw [h]

/-!  ### Claim C7: image cell composition and URL prefixing -/

def demoEO3 : ProductEO :=
  { folder := ("01_[A]_5").data, name := ("A").data, price_uah := 5,
    description := [], images := [("img_1.jpg").data] }

/-- C7 counterexample: with the supplied prefix `"cdn/"` the cell is
`"cdn/01_A_5__img_1.jpg"`, not `prefix + "/" + composedFilename`
(which would be `"cdn//01_A_5__img_1.jpg"`): the code strips trailing
slashes from the prefix first. -/
theorem image_prefix_counterexample :
    imageCellEO (("cdn/").data) demoEO3 0 = ("cdn/01_A_5__img_1.jpg").data ∧
    imageCellEO (("cdn/").data) demoEO3 0 ≠
      ("cdn/").data ++ ['/'] ++ composedName demoEO3.folder (("img_1.jpg").data) :=
  ⟨by decide, by decide⟩

/-- C7 amended: the cell is `rstrip('/', prefix) + "/" + composed` when a
prefix is supplied and the bare composed name otherwise; the composed name is
the bracket-stripped folder identifier, the fixed separator `"__"` and the
original attachment filename; composed names cannot collide for two folders
that differ in their equal-width bracket-free leading segments. -/
theorem image_cell_composition (ps : List ProductEO) (url : Str)
    (p : ProductEO) (i : Nat) (hp : p ∈ ps) (hi : i < p.images.length)
    (him : i < maxImagesEO ps) :
    ((buildRowEO (maxImagesEO ps) url p)[9 + i]? =
      some (imgColName (i + 1),
        Cell.s (if !url.isEmpty then
            rstripSlash url ++ ['/'] ++ composedName p.folder (p.images.getD i [])
          else composedName p.folder (p.images.getD i [])))) ∧
    (composedName p.folder (p.images.getD i []) =
      stripBrackets p.folder ++ ('_' :: '_' :: p.images.getD i [])) ∧
    (∀ (n₁ n₂ r₁ r₂ a₁ a₂ : Str), n₁.length = n₂.length → n₁ ≠ n₂ →
      (∀ c ∈ n₁, c ≠ '[' ∧ c ≠ ']') → (∀ c ∈ n₂, c ≠ '[' ∧ c ≠ ']') →
      composedName (n₁ ++ r₁) a₁ ≠ composedName (n₂ ++ r₂) a₂) := by
  refine ⟨?_, ?_, ?_⟩
  · rw [buildRowEO_get_img _ _ _ _ him]
    simp [hi, imageCellEO]
  · show composedName p.folder (p.images.getD i []) =
      stripBrackets p.folder ++ (['_', '_'] ++ p.images.getD i [])
    unfold composedName
    rw [List.append_assoc]
  · intro n₁ n₂ r₁ r₂ a₁ a₂ hlen hne hb1 hb2 hc
    have hs : ∀ (n r : Str), (∀ c ∈ n, c ≠ '[' ∧ c ≠ ']') →
        stripBrackets (n ++ r) = n ++ stripBrackets r := by
      intro n r hb
      unfold stripBrackets
      rw [List.filter_append]
      congr 1
      rw [List.filter_eq_self]
      intro c hcmem
      have hb' := hb c hcmem
      simp [hb'.1, hb'.2]
    unfold composedName at hc
    rw [hs n₁ r₁ hb1, hs n₂ r₂ hb2, List.append_assoc, List.append_assoc,
      List.append_assoc, List.append_assoc] at hc
    exact hne (List.append_inj hc hlen).1

/-- Witness for C7 amended, at a concrete record and prefix. -/
theorem image_cell_composition_witness :
    (buildRowEO (maxImagesEO [demoEO3]) (("cdn/").data) demoEO3)[9 + 0]? =
      some (imgColName 1,
        Cell.s (rstripSlash (("cdn/").data) ++ ['/'] ++
          composedName demoEO3.folder (demoEO3.images.getD 0 []))) := by
  have h := (image_cell_composition [demoEO3] (("cdn/").data) demoEO3 0
    (List.mem_cons_self _ _) (by decide) (by decide)).1
  rw [h]
  decide

/-!  ### Claim C8: degenerate-name fallback -/

/-- C8 counterexample: an *empty* stored name is not re-derived from the
folder (which would give `"Brand"`); `clean_name` returns the constant
`"Unknown Brand"` instead. -/
theorem name_fallback_counterexample :
    clean_name [] (("001_Brand_500").data) = ("Unknown Brand").data ∧
    ("Unknown Brand").data ≠ ("Brand").data ∧
    derivedFromFolder (("001_Brand_500").data) = ("Brand").data :=
  ⟨by decide, by decide, by decide⟩

lemma ub_nonempty (name : Str) :
    (if name.isEmpty then ("Unknown Brand").data else name) ≠ [] := by
  split
  · decide
  · rename_i h
    intro hc
    rw [hc] at h
    simp at h

/-- C8 amended: only a stored name matching the degenerate price-label
pattern (after underscores become spaces) is re-derived from the folder by
dropping the first and last `_`-segments and discarding purely numeric or
label-matching segments; when the stored name or the derived name is empty
the constant `"Unknown Brand"` is exported; every exported name is
non-empty.  The scenario name `"Ціна_500"` with folder `003_Ціна_500_500`
exports `"Unknown Brand"`, not `"Ціна 500"`. -/
theorem name_cleanup_fallback (raw folder : Str) :
    (junkNameMatch (strip (underscoresToSpaces raw)) = true →
      clean_name raw folder =
        (if (derivedFromFolder folder).isEmpty then ("Unknown Brand").data
         else derivedFromFolder folder)) ∧
    (junkNameMatch (strip (underscoresToSpaces raw)) = false →
      clean_name raw folder =
        (if (strip (underscoresToSpaces raw)).isEmpty then ("Unknown Brand").data
         else strip (underscoresToSpaces raw))) ∧
    clean_name raw folder ≠ [] ∧
    clean_name (("Ціна_500").data) (("003_Ціна_500_500").data) =
      ("Unknown Brand").data ∧
    ("Unknown Brand").data ≠ ("Ціна 500").data := by
  refine ⟨?_, ?_, ?_, by decide, by decide⟩
  · intro hjunk
    simp [clean_name, derivedFromFolder, hjunk]
  · intro hjunk
    simp [clean_name, hjunk]
  · simp only [clean_name]
    exact ub_nonempty _

/-- Witness for C8 amended: the degenerate scenario name triggers the
folder-derivation branch, whose empty derivation yields the constant. -/
theorem name_cleanup_fallback_witness :
    clean_name (("Ціна_500").data) (("003_Ціна_500_500").data) =
      (if (derivedFromFolder (("003_Ціна_500_500").data)).isEmpty
       then ("Unknown Brand").data
       else derivedFromFolder (("003_Ціна_500_500").data)) :=
  (name_cleanup_fallback (("Ціна_500").data) (("003_Ціна_500_500").data)).1
    (by decide)

/-!  ### Claim C10: rows only from directories with metadata -/

lemma mem_insertSorted (x : Str × Metadata) :
    ∀ (l : List (Str × Metadata)) (a : Str × Metadata),
      a ∈ insertSorted x l ↔ a = x ∨ a ∈ l := by
  intro l
  induction l with
  | nil => intro a; simp [insertSorted]
  | cons y ys ih =>
    intro a
    unfold insertSorted
    split
    · simp
    · rw [List.mem_cons, ih a, List.mem_cons]
      tauto

lemma mem_sortByFolder :
    ∀ (l : List (Str × Metadata)) (a : Str × Metadata),
      a ∈ sortByFolder l ↔ a ∈ l := by
  intro l
  induction l with
  | nil => intro a; simp [sortByFolder]
  | cons x xs ih =>
    intro a
    unfold sortByFolder
    rw [mem_insertSorted, ih, List.mem_cons]

/-- C10: for a valid group whose downloads all fail, the scraper has already
created the product directory but writes no `metadata.json` (and no
`info.txt`); the standalone export path builds its product list only from
directories whose `metadata.json` exists, so such a directory yields no row. -/
theorem export_only_requires_metadata (total idx : Nat) (lead : RawMessage)
    (text : Str) (info : ParsedAttributes)
    (hparse : parse_product_info text = some info) :
    ((assembleOne total idx lead text []).1 =
      [WriteEvent.mkdir (folderName total (idx + 1) info.name info.price)]) ∧
    (∀ fs : FS, ∀ p ∈ productsFromFS fs,
      ∃ meta : Metadata, (p.folder, some meta) ∈ fs) ∧
    (∀ (fs : FS) (folder : Str), (∀ meta : Metadata, (folder, some meta) ∉ fs) →
      ∀ p ∈ productsFromFS fs, p.folder ≠ folder) := by
  have hmain : ∀ fs : FS, ∀ p ∈ productsFromFS fs,
      ∃ meta : Metadata, (p.folder, some meta) ∈ fs := by
    intro fs p hp
    unfold productsFromFS at hp
    rw [List.mem_map] at hp
    obtain ⟨fm, hfm, heq⟩ := hp
    rw [mem_sortByFolder, List.mem_filterMap] at hfm
    obtain ⟨e, he, hmap⟩ := hfm
    cases he2 : e.2 with
    | none => rw [he2] at hmap; simp at hmap
    | some meta =>
      rw [he2] at hmap
      have hfm2 : some ((e.1, meta) : Str × Metadata) = some fm := by
        rw [← hmap]
        rfl
      have hfm3 := Option.some.inj hfm2
      refine ⟨meta, ?_⟩
      have hfolder : p.folder = e.1 := by
        rw [← heq, ← hfm3]
      rw [hfolder]
      have : (e.1, some meta) = e := by
        rw [← he2]
      rw [this]
      exact he
  refine ⟨?_, hmain, ?_⟩
  · unfold assembleOne
    rw [hparse]
    rfl
  · intro fs folder hnone p hp hc
    obtain ⟨meta, hmem⟩ := hmain fs p hp
    rw [hc] at hmem
    exact hnone meta hmem

/-- Witness for C10: concrete failed group leaves only a `mkdir`, and a
directory entry without metadata produces no product. -/
theorem export_only_requires_metadata_witness :
    ((assembleOne 1 0 demoM1 (("Ціна 500\nM").data) []).1 =
      [WriteEvent.mkdir (folderName 1 1 (("Ціна_500").data) 500)]) ∧
    (∀ p ∈ productsFromFS [((("1_Ціна_500_500").data), none)],
      p.folder ≠ ("1_Ціна_500_500").data) := by
  constructor
  · exact (export_only_requires_metadata 1 0 demoM1 (("Ціна 500\nM").data)
      { name := ("Ціна_500").data, price := 500, size := some (("M").data),
        description := ("M").data, raw_text := ("Ціна 500\nM").data }
      (by decide)).1
  · exact (export_only_requires_metadata 1 0 demoM1 (("Ціна 500\nM").data)
      { name := ("Ціна_500").data, price := 500, size := some (("M").data),
        description := ("M").data, raw_text := ("Ціна 500\nM").data }
      (by decide)).2.2 [((("1_Ціна_500_500").data), none)]
      (("1_Ціна_500_500").data)
      (fun meta hmem => by simp at hmem)

end TgScrape
